import Mathlib

/-
Shallow embedding of `py4uview/reader.py` (class `FileReader`), the binary
decoder for Elmitec UView `.dat` files.  Byte strings are modelled as
`List Nat` (each entry one byte), Python exceptions as an error type `Err`
threaded through `Except`, Python `dict` as an insertion-ordered association
list, and IEEE-754 single-precision values as exact rationals (the decoder
only ever moves float values around, so keeping them exact is faithful;
`NaN`/`inf` payloads are kept symbolically).
-/

namespace Py4uview

/-- Python exception kinds raised by the decoder paths modelled here. -/
inductive Err where
  | structError       -- struct.error: buffer of wrong length for the format
  | valueError        -- ValueError: int()/float() parse failure, numpy reshape failure
  | indexError        -- IndexError: indexing an empty/too-short bytes object
  | keyError          -- KeyError: missing dict key
  | typeError         -- TypeError: arithmetic/seek on a non-integer value
  | attributeError    -- AttributeError: assignment outside __slots__
  | unicodeDecode     -- UnicodeDecodeError: byte undefined in cp1252
  | osInvalid         -- OSError(22): seek to a negative absolute position
  | unboundLocal      -- UnboundLocalError: local variable referenced before assignment
  | stopIter          -- StopIteration escaping the skip list-comprehension
  | fuelOut           -- (model only) recursion fuel exhausted; never hit with the fuel we pass
deriving DecidableEq, Repr

/-- Python `bytes[a:b]` slicing (out-of-range indices clamp, never error). -/
def pySlice (l : List Nat) (a b : Nat) : List Nat :=
  (l.drop a).take (b - a)

/-- Python `bs.split(b"\x00")[0]`: the bytes before the first NUL
(the whole string when no NUL is present). -/
def pySplitFirst (l : List Nat) : List Nat :=
  l.takeWhile (fun b => b ≠ 0)

/-- Python `bs.split(b"\x00")[1]`: the bytes between the first and second NUL.
`IndexError` when the input contains no NUL at all. -/
def pySplitSecond (l : List Nat) : Except Err (List Nat) :=
  match (l.dropWhile (fun b => b ≠ 0)) with
  | [] => .error .indexError
  | _ :: rest => .ok (rest.takeWhile (fun b => b ≠ 0))

/-- The cp1252 mapping for the 0x80–0x9F range (other bytes map to the
identical Unicode code point).  The five holes of cp1252 raise
`UnicodeDecodeError` in Python. -/
def cp1252High (b : Nat) : Except Err Nat :=
  match b with
  | 0x80 => .ok 0x20AC | 0x82 => .ok 0x201A | 0x83 => .ok 0x0192
  | 0x84 => .ok 0x201E | 0x85 => .ok 0x2026 | 0x86 => .ok 0x2020
  | 0x87 => .ok 0x2021 | 0x88 => .ok 0x02C6 | 0x89 => .ok 0x2030
  | 0x8A => .ok 0x0160 | 0x8B => .ok 0x2039 | 0x8C => .ok 0x0152
  | 0x8E => .ok 0x017D | 0x91 => .ok 0x2018 | 0x92 => .ok 0x2019
  | 0x93 => .ok 0x201C | 0x94 => .ok 0x201D | 0x95 => .ok 0x2022
  | 0x96 => .ok 0x2013 | 0x97 => .ok 0x2014 | 0x98 => .ok 0x02DC
  | 0x99 => .ok 0x2122 | 0x9A => .ok 0x0161 | 0x9B => .ok 0x203A
  | 0x9C => .ok 0x0153 | 0x9E => .ok 0x017E | 0x9F => .ok 0x0178
  | _ => .error .unicodeDecode

/-- Decode one byte with Python's `cp1252` codec. -/
def cp1252Char (b : Nat) : Except Err Char :=
  if b < 0x80 ∨ 0xA0 ≤ b then .ok (Char.ofNat b)
  else (cp1252High b).map Char.ofNat

/-- Python `bs.decode("cp1252")`. -/
def decodeCp1252 (l : List Nat) : Except Err String := do
  let cs ← l.mapM cp1252Char
  pure (String.mk cs)

/-- Python `s[a:b]` on text strings. -/
def pyStrSlice (s : String) (a b : Nat) : String :=
  String.mk ((s.toList.drop a).take (b - a))

/-- 16-bit little-endian unsigned decoding of a byte pair. -/
def u16le (b0 b1 : Nat) : Nat := b0 + 256 * b1

/-- Reinterpret a 16-bit unsigned value as two's-complement signed. -/
def toSigned16 (n : Nat) : Int :=
  if n < 32768 then (n : Int) else (n : Int) - 65536

/-- `struct.unpack("<h", bs)[0]`: signed 16-bit little-endian; `struct.error`
unless the buffer is exactly 2 bytes. -/
def unpack_h (l : List Nat) : Except Err Int :=
  match l with
  | [b0, b1] => .ok (toSigned16 (u16le b0 b1))
  | _ => .error .structError

/-- `struct.unpack("<H", bs)[0]`: unsigned 16-bit little-endian. -/
def unpack_H (l : List Nat) : Except Err Nat :=
  match l with
  | [b0, b1] => .ok (u16le b0 b1)
  | _ => .error .structError

/-- `struct.unpack("<Q", bs)[0]`: unsigned 64-bit little-endian. -/
def unpack_Q (l : List Nat) : Except Err Nat :=
  match l with
  | [b0, b1, b2, b3, b4, b5, b6, b7] =>
      .ok (b0 + 256 * b1 + 256 ^ 2 * b2 + 256 ^ 3 * b3 + 256 ^ 4 * b4 +
           256 ^ 5 * b5 + 256 ^ 6 * b6 + 256 ^ 7 * b7)
  | _ => .error .structError

/-- Consecutive 16-bit little-endian unsigned values of a byte string
(numpy `uint16` view; a trailing odd byte is dropped). -/
def leU16s : List Nat → List Nat
  | b0 :: b1 :: rest => u16le b0 b1 :: leU16s rest
  | _ => []

/-- `struct.unpack("<nH", bs)`: `n` unsigned 16-bit values; `struct.error`
unless the buffer is exactly `2*n` bytes. -/
def unpackHs (n : Nat) (l : List Nat) : Except Err (List Nat) :=
  if l.length = 2 * n then .ok (leU16s l) else .error .structError

/-- A Python float: either an exact finite value (IEEE-754 payloads are
exactly representable as rationals) or an infinity or NaN. -/
inductive PFloat where
  | fin (q : ℚ)
  | inf (neg : Bool)
  | nan
deriving DecidableEq, Repr

/-- Value of an IEEE-754 single given as four little-endian bytes
(subnormals are `±m·2⁻¹⁴⁹`, normal numbers `±(2²³+m)·2^(e−150)`; the
rationals are built with `mkRat` so they evaluate by kernel reduction). -/
def f32val (b0 b1 b2 b3 : Nat) : PFloat :=
  let bits : Nat := b0 + 256 * b1 + 256 ^ 2 * b2 + 256 ^ 3 * b3
  let sgn  : Nat := bits / 2 ^ 31 % 2
  let e    : Nat := bits / 2 ^ 23 % 256
  let m    : Nat := bits % 2 ^ 23
  let sign : Int := if sgn = 1 then -1 else 1
  if e = 0 then
    .fin (mkRat (sign * (m : Int)) (2 ^ 149))
  else if e = 255 then
    if m = 0 then .inf (sgn = 1) else .nan
  else
    .fin (mkRat (sign * ((2 ^ 23 + m : Nat) : Int) * 2 ^ e) (2 ^ 150))

/-- `struct.unpack("<f", bs)[0]`: little-endian 32-bit float; `struct.error`
unless the buffer is exactly 4 bytes. -/
def unpack_f (l : List Nat) : Except Err PFloat :=
  match l with
  | [b0, b1, b2, b3] => .ok (f32val b0 b1 b2 b3)
  | _ => .error .structError

/-- A Python value as stored in the decoder's `metadata` dict.  `list` is the
general Python list (the decoder happens to only build two-element ones —
that is claim C8's subject, so it is not baked into the type).  `datetime`
keeps the raw FILETIME tick count; the calendar conversion done by
`_convert_ad_timestamp` involves no decoding logic relevant to any claim. -/
inductive PyVal where
  | int (n : Int)
  | pfloat (f : PFloat)
  | str (s : String)
  | bool (b : Bool)
  | pynone
  | bytes (bs : List Nat)
  | datetime (ticks : Nat)
  | list (vs : List PyVal)
deriving Repr

/-- The metadata dict: insertion-ordered association list. -/
abbrev Md := List (String × PyVal)

/-- Python `d[k] = v`: overwrite in place when the key exists, else append. -/
def dictSet (md : Md) (k : String) (v : PyVal) : Md :=
  match md with
  | [] => [(k, v)]
  | kv :: rest => if kv.1 = k then (k, v) :: rest else kv :: dictSet rest k v

/-- Python `d.get(k)` / `d[k]` lookup. -/
def dictGet (md : Md) (k : String) : Option PyVal :=
  match md with
  | [] => none
  | kv :: rest => if kv.1 = k then some kv.2 else dictGet rest k

/-- Apply a list of dict assignments in order. -/
def applyUpds (md : Md) (upds : List (String × PyVal)) : Md :=
  upds.foldl (fun m kv => dictSet m kv.1 kv.2) md

/-! ## Python `float(str)` (the subset of forms the decoder can meet) -/

/-- Decimal value of a digit list (assumed all `'0'..'9'`). -/
def digitsVal (ds : List Char) : Nat :=
  ds.foldl (fun a c => a * 10 + (c.toNat - 48)) 0

def allDigits (ds : List Char) : Bool :=
  ds.all (fun c => 48 ≤ c.toNat ∧ c.toNat ≤ 57)

def isPySpace (c : Char) : Bool :=
  c = ' ' ∨ c = '\t' ∨ c = '\n' ∨ c = '\x0d' ∨ c = '\x0b' ∨ c = '\x0c'

/-- Split off an optional leading sign; `true` means negative. -/
def takeSign : List Char → Bool × List Char
  | '+' :: cs => (false, cs)
  | '-' :: cs => (true, cs)
  | cs => (false, cs)

/-- Parse `digits [. digits]` (at least one digit overall) as a rational. -/
def parseMantissa (cs : List Char) : Except Err ℚ :=
  let ip := cs.takeWhile (fun c => c ≠ '.')
  let rest := cs.dropWhile (fun c => c ≠ '.')
  match rest with
  | [] =>
      if ip ≠ [] ∧ allDigits ip then .ok (mkRat (digitsVal ip) 1)
      else .error .valueError
  | _ :: fp =>
      if (ip ≠ [] ∨ fp ≠ []) ∧ allDigits ip ∧ allDigits fp then
        .ok (mkRat (digitsVal ip * 10 ^ fp.length + digitsVal fp) (10 ^ fp.length))
      else .error .valueError

/-- Python `float(s)`: optional surrounding whitespace, optional sign,
`inf`/`infinity`/`nan` (case-insensitive) or a decimal with optional
exponent.  (Underscore digit separators and non-ASCII digits, which Python
would also accept, are not modelled; no string the decoder meets uses them.) -/
def pyFloat (s : String) : Except Err PFloat :=
  let cs := (s.toList.dropWhile isPySpace).reverse.dropWhile isPySpace |>.reverse
  let (neg, cs) := takeSign cs
  let low := cs.map Char.toLower
  if low = "inf".toList ∨ low = "infinity".toList then .ok (.inf neg)
  else if low = "nan".toList then .ok .nan
  else
    let mPart := cs.takeWhile (fun c => c ≠ 'e' ∧ c ≠ 'E')
    let ePart := cs.dropWhile (fun c => c ≠ 'e' ∧ c ≠ 'E')
    match ePart with
    | [] => (parseMantissa cs).map (fun q => .fin (if neg then -q else q))
    | _ :: ecs => do
        let m ← parseMantissa mPart
        let (eneg, eds) := takeSign ecs
        if eds ≠ [] ∧ allDigits eds then
          let scale : ℚ :=
            if eneg then mkRat 1 (10 ^ digitsVal eds) else mkRat (10 ^ digitsVal eds) 1
          let q := m * scale
          .ok (.fin (if neg then -q else q))
        else .error .valueError

/-- Python `s.split(sep)[0]` for a non-empty separator: the text before the
first occurrence of `sep` (the whole string when `sep` does not occur). -/
def splitFirstAux (sep : List Char) : List Char → List Char
  | [] => []
  | c :: cs => if sep.isPrefixOf (c :: cs) then [] else c :: splitFirstAux sep cs

def pyStrSplitFirst (s sep : String) : String :=
  String.mk (splitFirstAux sep.toList s.toList)

/-! ## The tagged metadata decoder (`FileReader._read_leemheader`)

The Python loop iterates the leem-header bytes with an iterator `b_iter`,
keeps an absolute counter `self._position` (always the index of the tag byte
just taken from the iterator), dispatches on the tag, and after each record
executes `[next(b_iter) for x in range(offset)]` and
`self._position += offset + 1`.  `offset` is a plain local variable: the
unknown-tag branch does not assign it, so there it retains the value left by
the previous iteration — and on the first iteration it is unbound
(`UnboundLocalError`).  When fewer than `offset` bytes remain, `next` raises
`StopIteration`, which escapes the list comprehension and aborts the decode.

`leemStep` is the loop body for the tag at `pos`: it yields the dict
assignments of that branch and the value the branch gives `offset`.
`leemLoop` is the driver; it also collects the positions at which the
unknown-tag diagnostic (`logging.error`) fires. -/

-- data_fields with standard format in MAXPEEM (module constant KNOWN_TAGS)
def KNOWN_TAGS : List Nat :=
  [210, 203, 185, 208, 215, 184, 169, 222, 136, 137, 133, 134, 138, 135, 132,
   143, 144, 206, 172, 147, 171, 145, 146, 148, 168, 130, 131, 158, 159, 128,
   129, 161, 162, 211, 163, 149, 187, 177, 178, 180, 181, 202, 190, 191, 194,
   195, 196, 214, 198, 199, 182, 179, 200, 201, 176, 197, 192, 213, 209, 183,
   186, 212, 164, 165, 140, 141, 11, 160, 150, 151, 153, 154, 156, 157, 152,
   155, 173, 174, 205, 204, 188, 189, 175, 162, 170, 142, 207, 219, 39, 38]

def UNIT_DICT : List String :=
  ["", "V", "mA", "A", "°C", " K", "mV", "pA", "nA", "µA"]

-- 235: COL, 236: Gauge 3, 237: PCH, 106: MCH
def GAUGE_TAGS : List Nat := [106, 235, 236, 237]

/-- `FileReader._read_field`: one standard-format record
`tag - name(str) - unit(ASCII digit) - 0 - value(float)` at `pos`.
Returns the dict assignment and the branch's `offset`. -/
def stdField (hdr : List Nat) (pos : Nat) : Except Err (List (String × PyVal) × Nat) := do
  let temp := pySplitFirst (hdr.drop (pos + 1))
  let name ← decodeCp1252 temp.dropLast
  match temp.getLast? with
  | none => .error .indexError       -- temp[-1] on empty bytes
  | some last =>
    if 48 ≤ last ∧ last ≤ 57 then    -- int(chr(temp[-1])) succeeds only on a digit
      let unit_tag := last - 48
      let val ← unpack_f (pySlice hdr (pos + temp.length + 2) (pos + temp.length + 6))
      .ok ([(name, PyVal.list [.pfloat val, .str (UNIT_DICT.getD unit_tag "")])],
           temp.length + 5)
    else .error .valueError

/-- Tag 104: camera exposure (float) plus averaging-mode byte. -/
def camera104 (hdr : List Nat) (pos : Nat) : Except Err (List (String × PyVal) × Nat) := do
  let expo ← unpack_f (pySlice hdr (pos + 1) (pos + 5))
  match (hdr.drop (pos + 5)).head? with
  | none => .error .indexError       -- self._leemheader[self._position + 5]
  | some avg =>
      .ok ([("Camera Exposure", PyVal.list [.pfloat expo, .str "s"]),
            ("Average Images", PyVal.int avg)], 6)

/-- `FileReader._read_varian`: gauge record
`tag - name(str) - 0 - unit(str) - 0 - value(float)`. -/
def readVarian (hdr : List Nat) (pos : Nat) : Except Err (List (String × PyVal) × Nat) := do
  let temp_1 := pySplitFirst (hdr.drop (pos + 1))
  let temp_2 ← pySplitSecond (hdr.drop (pos + 1))
  let str_1 ← decodeCp1252 temp_1
  let str_2 ← decodeCp1252 temp_2
  let val ← unpack_f (pySlice hdr (pos + temp_1.length + temp_2.length + 3)
                                  (pos + temp_1.length + temp_2.length + 7))
  .ok ([(str_1, PyVal.list [.pfloat val, .str str_2])],
       temp_1.length + temp_2.length + 6)

/-- Tag 233: image title, one NUL-terminated string. -/
def title233 (hdr : List Nat) (pos : Nat) : Except Err (List (String × PyVal) × Nat) := do
  let temp := pySplitFirst (hdr.drop (pos + 1))
  let s ← decodeCp1252 temp
  .ok ([("Image Title", PyVal.str s)], temp.length + 1)

/-- Tags 243/244/113: one float with a fixed key and unit, offset 4. -/
def float4 (key unit : String) (hdr : List Nat) (pos : Nat) :
    Except Err (List (String × PyVal) × Nat) := do
  let v ← unpack_f (pySlice hdr (pos + 1) (pos + 5))
  .ok ([(key, PyVal.list [.pfloat v, .str unit])], 4)

/-- Tags 100/239: two floats at `+1..+5` and `+5..+9`, offset 8. -/
def floatPair (k1 k2 unit : String) (hdr : List Nat) (pos : Nat) :
    Except Err (List (String × PyVal) × Nat) := do
  let v1 ← unpack_f (pySlice hdr (pos + 1) (pos + 5))
  let v2 ← unpack_f (pySlice hdr (pos + 5) (pos + 9))
  .ok ([(k1, PyVal.list [.pfloat v1, .str unit]),
        (k2, PyVal.list [.pfloat v2, .str unit])], 8)

/-- Tags 242/240: one raw byte stored as an int, offset 2. -/
def byteState (key : String) (hdr : List Nat) (pos : Nat) :
    Except Err (List (String × PyVal) × Nat) :=
  match (hdr.drop (pos + 1)).head? with
  | none => .error .indexError
  | some b => .ok ([(key, PyVal.int b)], 2)

/-- Tag 110: field of view.  A NUL-terminated string, the calibration-factor
float right after it (stored first, as a bare Python float), then the
string-prefix dispatch; the numeric sub-case parses the text before `"µm"`
with `float()`, a `ValueError` being caught (only `LEED = False` remains). -/
def fov110 (hdr : List Nat) (pos : Nat) : Except Err (List (String × PyVal) × Nat) := do
  let temp := pySplitFirst (hdr.drop (pos + 1))
  let fov_str ← decodeCp1252 temp
  let calf ← unpack_f (pySlice hdr (pos + temp.length + 2) (pos + temp.length + 6))
  let base : List (String × PyVal) := [("FOV cal. factor", PyVal.pfloat calf)]
  let upds :=
    if pyStrSlice fov_str 0 4 = "LEED" then
      base ++ [("LEED", PyVal.bool true), ("FOV", PyVal.pynone)]
    else if pyStrSlice fov_str 0 4 = "none" then
      base ++ [("FOV", PyVal.pynone)]
    else if pyStrSlice fov_str 0 8 = "disp.pl." then
      base ++ [("FOV", PyVal.pynone), ("disp_plane", PyVal.bool true)]
    else
      match pyFloat (pyStrSplitFirst fov_str "µm") with
      | .ok q => base ++ [("LEED", PyVal.bool false),
                          ("FOV", PyVal.list [.pfloat q, .str "µm"])]
      | .error _ => base ++ [("LEED", PyVal.bool false)]
  .ok (upds, temp.length + 5)

/-- Outcome of one loop iteration. -/
inductive StepOut where
  | halt                                        -- tag 255: break
  | record (upds : List (String × PyVal)) (off : Nat)  -- a decoded record
  | unknown                                     -- unrecognized tag: logging.error, offset untouched
deriving Repr

/-- The dispatch of the `for b in b_iter` loop body on the tag byte at `pos`. -/
def leemStep (hdr : List Nat) (pos : Nat) : Except Err StepOut :=
  match hdr.get? pos with
  | none => .ok .halt
  | some b =>
    if b = 255 then .ok .halt
    else if KNOWN_TAGS.contains b then (stdField hdr pos).map (fun r => .record r.1 r.2)
    else if b = 104 then (camera104 hdr pos).map (fun r => .record r.1 r.2)
    else if GAUGE_TAGS.contains b then (readVarian hdr pos).map (fun r => .record r.1 r.2)
    else if b = 233 then (title233 hdr pos).map (fun r => .record r.1 r.2)
    else if b = 243 then (float4 "MCPscreen" "V" hdr pos).map (fun r => .record r.1 r.2)
    else if b = 244 then (float4 "MCPchannelplate" "V" hdr pos).map (fun r => .record r.1 r.2)
    else if b = 100 then (floatPair "Mitutoyo X" "Mitutoyo Y" "mm" hdr pos).map (fun r => .record r.1 r.2)
    else if b = 242 then (byteState "MirrorState" hdr pos).map (fun r => .record r.1 r.2)
    else if b = 110 then (fov110 hdr pos).map (fun r => .record r.1 r.2)
    else if b = 113 then (float4 "Rotation" "degree" hdr pos).map (fun r => .record r.1 r.2)
    else if b = 240 then (byteState "Spin up_down" hdr pos).map (fun r => .record r.1 r.2)
    else if b = 239 then (floatPair "Theta" "Phi" "degree" hdr pos).map (fun r => .record r.1 r.2)
    else .ok .unknown

/-- All tag bytes some branch of the loop recognizes (255 aside). -/
def isKnownTag (b : Nat) : Bool :=
  KNOWN_TAGS.contains b || b == 104 || GAUGE_TAGS.contains b || b == 233 ||
  b == 243 || b == 244 || b == 100 || b == 242 || b == 110 || b == 113 ||
  b == 240 || b == 239

/-- The loop driver.  `prevOff` is the current value of the Python local
`offset` (`none` before any branch has assigned it), `diags` collects the
`(tag, position)` pairs at which the unknown-tag `logging.error` fires.
`pos + 1 + off ≤ hdr.length` is the condition for the skip comprehension
`[next(b_iter) for x in range(offset)]` not to exhaust the iterator. -/
def leemLoop (hdr : List Nat) (fuel0 : Nat) (pos0 : Nat) (prevOff0 : Option Nat)
    (md0 : Md) (diags0 : List (Nat × Nat)) : Except Err (Md × List (Nat × Nat)) :=
  match fuel0, pos0, prevOff0, md0, diags0 with
  | 0, _, _, _, _ => .error .fuelOut
  | fuel + 1, pos, prevOff, md, diags =>
    if pos < hdr.length then
      match leemStep hdr pos with
      | .error e => .error e
      | .ok .halt => .ok (md, diags)
      | .ok (.record upds off) =>
          if pos + 1 + off ≤ hdr.length then
            leemLoop hdr fuel (pos + off + 1) (some off) (applyUpds md upds) diags
          else .error .stopIter
      | .ok .unknown =>
          match prevOff with
          | none => .error .unboundLocal
          | some off =>
              if pos + 1 + off ≤ hdr.length then
                leemLoop hdr fuel (pos + off + 1) (some off) md
                  (diags ++ [((hdr.get? pos).getD 0, pos)])
              else .error .stopIter
    else .ok (md, diags)

/-- `FileReader._read_leemheader`, acting on the metadata dict `md` built so
far by `_read`. -/
def readLeemheader (hdr : List Nat) (md : Md) : Except Err (Md × List (Nat × Nat)) :=
  leemLoop hdr (hdr.length + 1) 0 none md []

/-! ## The markup decoder (`FileReader._read_markups`) -/

/-- A point marker: `{"x": …, "y": …, "radius": …}`. -/
structure MarkVal where
  x : Nat
  y : Nat
  radius : Nat
deriving DecidableEq, Repr

/-- An arbitrary cross-section: `{"x0_y0": (…, …), "x1_y1": (…, …)}`. -/
structure ArbVal where
  x0_y0 : Nat × Nat
  x1_y1 : Nat × Nat
deriving DecidableEq, Repr

/-- `self.markups`: a dict whose `"marker"` / `"arbitrary"` keys are created
on first use (`none` = key absent). -/
structure Markups where
  marker : Option (List MarkVal)
  arbitrary : Option (List ArbVal)
deriving DecidableEq, Repr

def addMarker (m : Markups) (v : MarkVal) : Markups :=
  { m with marker := some ((m.marker.getD []) ++ [v]) }

def addArbitrary (m : Markups) (v : ArbVal) : Markups :=
  { m with arbitrary := some ((m.arbitrary.getD []) ++ [v]) }

/-- The `while type_marker:` loop of `_read_markups`.  `type = 6`: a fixed
24-byte record unpacked as 12 `uint16`, fields 1–3 are x, y, radius.
`type = 3`: a fixed 14-byte record unpacked as 7 `uint16`, fields 1–4 the two
endpoints.  Any other non-zero type prints "Unknown marker" and breaks. -/
def markupLoop (mk : List Nat) : Nat → Nat → Markups → Except Err Markups
  | 0, _, _ => .error .fuelOut
  | fuel + 1, i, acc => do
    let t ← unpack_H (pySlice mk i (i + 2))
    if t = 0 then .ok acc
    else if t = 6 then do
      let vals ← unpackHs 12 (pySlice mk i (i + 24))
      markupLoop mk fuel (i + 24)
        (addMarker acc ⟨vals.getD 1 0, vals.getD 2 0, vals.getD 3 0⟩)
    else if t = 3 then do
      let vals ← unpackHs 7 (pySlice mk i (i + 14))
      markupLoop mk fuel (i + 14)
        (addArbitrary acc ⟨(vals.getD 1 0, vals.getD 2 0), (vals.getD 3 0, vals.getD 4 0)⟩)
    else .ok acc    -- print("Unknown marker"); break

/-- `FileReader._read_markups`: cursor starts at 4, past the block header. -/
def readMarkups (mk : List Nat) : Except Err Markups :=
  markupLoop mk (mk.length + 1) 4 ⟨none, none⟩

/-! ## The fixed-header parser and image extraction (`FileReader._read`)

Python file-object semantics over a fully-present byte list: `f.read(n)`
returns the min(n, what remains) bytes at the cursor (all remaining bytes
for negative `n`) and advances by as much; `f.seek(k, 1)` / `f.seek(k, 2)`
move to `pos + k` / `len + k`, may point past the end, and raise
`OSError(22)` for a negative target. -/

/-- `f.read(n)` at position `p`: the bytes obtained and the new position. -/
def freadAt (file : List Nat) (p : Nat) (n : Int) : List Nat × Nat :=
  let avail := file.drop p
  let chunk := if n < 0 then avail else avail.take n.toNat
  (chunk, p + chunk.length)

/-- `f.seek(k, 1)`. -/
def seekCurAt (_file : List Nat) (p : Nat) (k : Int) : Except Err Nat :=
  if (p : Int) + k < 0 then .error .osInvalid else .ok ((p : Int) + k).toNat

/-- `f.seek(k, 2)`. -/
def seekEndAt (file : List Nat) (k : Int) : Except Err Nat :=
  if (file.length : Int) + k < 0 then .error .osInvalid
  else .ok ((file.length : Int) + k).toNat

/-- `struct.unpack("<h", f.read(2))[0]` as one step. -/
def readH (file : List Nat) (p : Nat) : Except Err (Int × Nat) := do
  let r := freadAt file p 2
  let v ← unpack_h r.1
  .ok (v, r.2)

/-- Result of the first part of `_read`. -/
structure DimsOut where
  md : Md
  width : Int
  height : Int
  pos : Nat
deriving Repr

/-- `_read`, first part: up to and including the width/height reads
(offsets 40–44).  Everything before them is fixed-size, unconditional. -/
def readThroughDims (file : List Nat) : Except Err DimsOut := do
  let idb := (freadAt file 0 20).1
  let p := (freadAt file 0 20).2
  let md : Md := dictSet [] "id" (.bytes (pySplitFirst idb))
  let rs ← readH file p
  let md := dictSet md "size" (.int rs.1)
  let rv ← readH file rs.2
  let md := dictSet md "version" (.int rv.1)
  let rb ← readH file rv.2
  let md := dictSet md "bitsperpix" (.int rb.1)
  let p ← seekCurAt file rb.2 6    -- for alignment
  let p ← seekCurAt file p 8       -- spare
  let rw' ← readH file p
  let md := dictSet md "width" (.int rw'.1)
  let rh ← readH file rw'.2
  let md := dictSet md "height" (.int rh.1)
  .ok ⟨md, rw'.1, rh.1, rh.2⟩

/-- The fields of the fixed header the rest of `_read` branches on. -/
structure FixedInfo where
  md : Md
  width : Int
  height : Int
  attMarkupsize : Int
  versleemdata : Int
deriving Repr

/-- `_read`, second part: image count through `versleemdata` (offsets 44–132
when no recipe is attached).  When `attachedRecipeSize` is non-zero the
recipe bytes are read, but storing them (`self._recipe = …`) raises
`AttributeError`: `FileReader.__slots__` contains `"recipe"`, not
`"_recipe"`, so the decode of any file with an attached recipe aborts; the
`f.seek(128 - attachedRecipeSize, 1)` that follows is never reached. -/
def readRestHeader (file : List Nat) (md : Md) (w h : Int) (p0 : Nat) :
    Except Err (FixedInfo × Nat) := do
  let rn ← readH file p0
  let md := dictSet md "noimg" (.int rn.1)
  let ra ← readH file rn.2
  let ars := ra.1
  let md := dictSet md "attachedRecipeSize" (.int ars)
  let p ← seekCurAt file ra.2 56   -- spare
  let p ←
    if ars ≠ 0 then do
      let _recipeBytes := (freadAt file p ars).1
      throw Err.attributeError   -- self._recipe = …  with "_recipe" ∉ __slots__
    else pure p
  let ri ← readH file p
  let md := dictSet md "isize" (.int ri.1)
  let rj ← readH file ri.2
  let md := dictSet md "iversion" (.int rj.1)
  let rl ← readH file rj.2
  let md := dictSet md "colorscale_low" (.int rl.1)
  let rc ← readH file rl.2
  let md := dictSet md "colorscale_high" (.int rc.1)
  let rt := freadAt file rc.2 8
  let ticks ← unpack_Q rt.1
  let md := dictSet md "timestamp" (.datetime ticks)   -- _convert_ad_timestamp
  let rx ← readH file rt.2
  let md := dictSet md "mask_xshift" (.int rx.1)
  let ry ← readH file rx.2
  let md := dictSet md "mask_yshift" (.int ry.1)
  let ru := freadAt file ry.2 1
  let md := dictSet md "usemask" (.bytes ru.1)
  let p ← seekCurAt file ru.2 1    -- spare
  let rm ← readH file p
  let ams := rm.1
  let md := dictSet md "att_markupsize" (.int ams)
  let rp ← readH file rm.2
  let md := dictSet md "spin" (.int rp.1)
  let rv ← readH file rp.2   -- versleemdata, not stored in metadata
  .ok (⟨md, w, h, ams, rv.1⟩, rv.2)

/-- Result of the leem phase of `_read`. -/
structure LeemOut where
  md : Md
  markups : Option Markups
  pos : Nat
deriving Repr

/-- `_read`, third part: the layout branch on `versleemdata`, the optional
markup block, and the leem-header decode. -/
def readLeemPhase (file : List Nat) (fi : FixedInfo) (p0 : Nat) :
    Except Err LeemOut := do
  if fi.versleemdata ≤ 2 then
    let rl := freadAt file p0 240        -- 240 bytes leemdata
    let p ← seekCurAt file rl.2 20       -- spare
    let r ← readLeemheader rl.1 fi.md
    .ok ⟨r.1, none, p⟩
  else do
    let p ← seekCurAt file p0 260
    let mp ←
      if fi.attMarkupsize > 0 then do
        let rb := freadAt file p (128 * (fi.attMarkupsize.fdiv 128 + 1))
        let mks ← readMarkups rb.1
        pure ((some mks : Option Markups), rb.2)
      else pure ((none : Option Markups), p)
    let rl := freadAt file mp.2 fi.versleemdata
    let r ← readLeemheader rl.1 fi.md
    .ok ⟨r.1, mp.1, rl.2⟩

/-- Is a metadata value usable as a Python integer in arithmetic
(`int`, or `bool` — a subclass of `int`)? -/
def pyIntOf : Option PyVal → Except Err Int
  | some (.int n) => .ok n
  | some (.bool b) => .ok (if b then 1 else 0)
  | some _ => .error .typeError   -- -2 * value / f.seek(value) fails for every other shape
  | none => .error .keyError

/-- Cut a flat list into `h` rows of `w` entries each. -/
def chunkRows : Nat → Nat → List Nat → List (List Nat)
  | 0, _, _ => []
  | h + 1, w, l => l.take w :: chunkRows h w (l.drop w)

/-- numpy `reshape([h, w])` of a flat sample list.  A single negative entry
is the "unknown dimension" (inferred when the known product is positive and
divides the size); two negatives, or a size mismatch, raise `ValueError`. -/
def npReshape (samples : List Nat) (h w : Int) : Except Err (List (List Nat)) :=
  if 0 ≤ h ∧ 0 ≤ w then
    if samples.length = h.toNat * w.toNat then
      .ok (chunkRows h.toNat w.toNat samples)
    else .error .valueError
  else if 0 ≤ w ∧ h < 0 then
    if 0 < w.toNat ∧ samples.length % w.toNat = 0 then
      .ok (chunkRows (samples.length / w.toNat) w.toNat samples)
    else .error .valueError
  else if 0 ≤ h ∧ w < 0 then
    if 0 < h.toNat ∧ samples.length % h.toNat = 0 then
      .ok (chunkRows h.toNat (samples.length / h.toNat) samples)
    else .error .valueError
  else .error .valueError

/-- `_read`, last part: seek to `len − 2*h*w`, read the `uint16` samples to
EOF, reshape to `h × w`, and flip vertically (`np.flipud`). -/
def readImage (file : List Nat) (md : Md) : Except Err (List (List Nat)) := do
  let hv ← pyIntOf (dictGet md "height")
  let wv ← pyIntOf (dictGet md "width")
  let p ← seekEndAt file (-2 * hv * wv)
  let raw := (freadAt file p (-1)).1   -- np.fromfile reads to EOF
  let samples := leU16s raw
  let grid ← npReshape samples hv wv
  .ok grid.reverse

/-- The aggregate result of a successful decode. -/
structure DecodedFile where
  metadata : Md
  markups : Option Markups
  data : List (List Nat)
deriving Repr

/-- `FileReader._read` / `read_uv_dat`: the whole decode of one file. -/
def decodeDat (file : List Nat) : Except Err DecodedFile := do
  let d ← readThroughDims file
  let r ← readRestHeader file d.md d.width d.height d.pos
  let lo ← readLeemPhase file r.1 r.2
  let grid ← readImage file lo.md
  .ok ⟨lo.md, lo.markups, grid⟩

/-- The width and height the fixed header declares (what `_read` stores under
`"width"`/`"height"` before any metadata decoding), when the header region is
long enough to contain them. -/
def declaredDims (file : List Nat) : Option (Int × Int) :=
  match readThroughDims file with
  | .ok d => some (d.width, d.height)
  | .error _ => none

/-- The absolute cursor position after the fixed-header parse — for the
simple layout (`versleemdata ≤ 2`) exactly the offset at which the
leem-header block is read. -/
def posBeforeLeem (file : List Nat) : Except Err Nat := do
  let d ← readThroughDims file
  let r ← readRestHeader file d.md d.width d.height d.pos
  .ok r.2

/-- The branch `offset` of a loop iteration that decoded a record. -/
def stepOffset (r : Except Err StepOut) : Option Nat :=
  match r with
  | .ok (.record _ off) => some off
  | _ => none

/-! ## Auxiliary lemmas: the dict model -/

theorem mem_dictSet {md : Md} {k : String} {v : PyVal} {kv : String × PyVal}
    (h : kv ∈ dictSet md k v) : kv ∈ md ∨ kv = (k, v) := by
  induction md with
  | nil => simp [dictSet] at h; right; exact h
  | cons hd tl ih =>
      by_cases hk : hd.1 = k
      · simp only [dictSet, if_pos hk, List.mem_cons] at h
        rcases h with h | h
        · right; exact h
        · left; exact List.mem_cons_of_mem _ h
      · simp only [dictSet, if_neg hk, List.mem_cons] at h
        rcases h with h | h
        · left; exact h ▸ List.mem_cons_self _ _
        · rcases ih h with h' | h'
          · left; exact List.mem_cons_of_mem _ h'
          · right; exact h'

theorem mem_dictSet_ne {md : Md} {k : String} {v : PyVal} {kv : String × PyVal}
    (hne : kv.1 ≠ k) (h : kv ∈ dictSet md k v) : kv ∈ md := by
  rcases mem_dictSet h with h' | h'
  · exact h'
  · exact absurd (congrArg Prod.fst h') hne

theorem pair_mem_dictSet_ne {md : Md} {k k' : String} {v v' : PyVal}
    (hne : k' ≠ k) (h : (k', v') ∈ dictSet md k v) : (k', v') ∈ md :=
  mem_dictSet_ne hne h

theorem mem_applyUpds {md : Md} {upds : List (String × PyVal)} {kv : String × PyVal}
    (h : kv ∈ applyUpds md upds) : kv ∈ md ∨ kv ∈ upds := by
  induction upds generalizing md with
  | nil => left; exact h
  | cons u us ih =>
      rcases @ih (dictSet md u.1 u.2) h with h' | h'
      · rcases mem_dictSet h' with h'' | h''
        · left; exact h''
        · right
          have hu : kv = u := by cases u; exact h''
          rw [hu]
          exact List.mem_cons_self _ _
      · right; exact List.mem_cons_of_mem _ h'

theorem dictGet_mem {md : Md} {k : String} {v : PyVal}
    (h : dictGet md k = some v) : (k, v) ∈ md := by
  induction md with
  | nil => simp [dictGet] at h
  | cons hd tl ih =>
      obtain ⟨a, b⟩ := hd
      by_cases hk : a = k
      · simp only [dictGet, if_pos hk] at h
        have hb : b = v := Option.some_inj.mp h
        rw [← hk, ← hb]
        exact List.mem_cons_self _ _
      · simp only [dictGet] at h
        rw [if_neg hk] at h
        exact List.mem_cons_of_mem _ (ih h)

theorem dictGet_dictSet_self {md : Md} {k : String} {v : PyVal} :
    dictGet (dictSet md k v) k = some v := by
  induction md with
  | nil => simp [dictSet, dictGet]
  | cons hd tl ih =>
      by_cases hk : hd.1 = k
      · simp only [dictSet, if_pos hk, dictGet]
        simp
      · simp only [dictSet, if_neg hk, dictGet, if_neg hk]
        exact ih

theorem dictGet_dictSet_ne {md : Md} {k k' : String} {v : PyVal}
    (hne : k' ≠ k) : dictGet (dictSet md k v) k' = dictGet md k' := by
  have hne' : ¬(k = k') := fun h => hne h.symm
  induction md with
  | nil => simp only [dictSet, dictGet, if_neg hne']
  | cons hd tl ih =>
      by_cases hk : hd.1 = k
      · simp only [dictSet, if_pos hk, dictGet, if_neg hne']
        rw [hk, if_neg hne']
      · by_cases hk' : hd.1 = k'
        · simp only [dictSet, if_neg hk, dictGet, if_pos hk']
        · simp only [dictSet, if_neg hk, dictGet, if_neg hk']
          exact ih

/-! ## Auxiliary lemmas: shapes of decoded values

`valShape` is the shape constraint of claim C8 as the code actually meets
it: any scalar, or a list of exactly two entries.  `updOK` additionally
records that the loop stores raw-int and boolean values only under a fixed
handful of keys — in particular never under `"width"`/`"height"`. -/

def valShape (v : PyVal) : Prop :=
  match v with
  | .list l => l.length = 2
  | _ => True

def updOK (kv : String × PyVal) : Prop :=
  match kv.2 with
  | .list l => l.length = 2
  | .int _ => kv.1 ∈ ["Average Images", "MirrorState", "Spin up_down"]
  | .bool _ => kv.1 ∈ ["LEED", "disp_plane"]
  | _ => True

theorem updOK_valShape {kv : String × PyVal} (h : updOK kv) : valShape kv.2 := by
  rcases kv with ⟨k, v⟩
  cases v
  case list l => exact h
  all_goals trivial

/-! Every record branch of the loop produces only `updOK` assignments. -/

theorem bind_ok {A B : Type} {x : Except Err A} {f : A → Except Err B} {b : B}
    (h : Bind.bind x f = .ok b) : ∃ a, x = .ok a ∧ f a = .ok b := by
  cases x with
  | error e => exact Except.noConfusion h
  | ok a => exact ⟨a, rfl, h⟩

theorem ok_upds {A : List (String × PyVal)} {B : Nat} {upds : List (String × PyVal)}
    {off : Nat} (h : (Except.ok (A, B) : Except Err _) = .ok (upds, off)) : A = upds := by
  injection h with h1
  exact congrArg Prod.fst h1

theorem stdField_updOK {hdr : List Nat} {pos : Nat} {upds : List (String × PyVal)}
    {off : Nat} (h : stdField hdr pos = .ok (upds, off)) : ∀ kv ∈ upds, updOK kv := by
  unfold stdField at h
  obtain ⟨name, -, h⟩ := bind_ok h
  split at h
  · exact Except.noConfusion h
  split at h
  · obtain ⟨val, -, h⟩ := bind_ok h
    rw [← ok_upds h]
    intro kv hkv
    simp only [List.mem_singleton] at hkv
    subst hkv
    exact rfl
  · exact Except.noConfusion h

theorem camera104_updOK {hdr : List Nat} {pos : Nat} {upds : List (String × PyVal)}
    {off : Nat} (h : camera104 hdr pos = .ok (upds, off)) : ∀ kv ∈ upds, updOK kv := by
  unfold camera104 at h
  obtain ⟨expo, -, h⟩ := bind_ok h
  split at h
  · exact Except.noConfusion h
  · rw [← ok_upds h]
    intro kv hkv
    simp only [List.mem_cons, List.not_mem_nil, or_false] at hkv
    rcases hkv with hkv | hkv
    · rw [hkv]; exact rfl
    · rw [hkv]; simp [updOK]

theorem readVarian_updOK {hdr : List Nat} {pos : Nat} {upds : List (String × PyVal)}
    {off : Nat} (h : readVarian hdr pos = .ok (upds, off)) : ∀ kv ∈ upds, updOK kv := by
  unfold readVarian at h
  obtain ⟨t2, -, h⟩ := bind_ok h
  obtain ⟨s1, -, h⟩ := bind_ok h
  obtain ⟨s2, -, h⟩ := bind_ok h
  obtain ⟨val, -, h⟩ := bind_ok h
  rw [← ok_upds h]
  intro kv hkv
  simp only [List.mem_singleton] at hkv
  subst hkv
  exact rfl

theorem title233_updOK {hdr : List Nat} {pos : Nat} {upds : List (String × PyVal)}
    {off : Nat} (h : title233 hdr pos = .ok (upds, off)) : ∀ kv ∈ upds, updOK kv := by
  unfold title233 at h
  obtain ⟨s, -, h⟩ := bind_ok h
  rw [← ok_upds h]
  intro kv hkv
  simp only [List.mem_singleton] at hkv
  subst hkv
  trivial

theorem float4_updOK {key unit : String} {hdr : List Nat} {pos : Nat}
    {upds : List (String × PyVal)} {off : Nat}
    (h : float4 key unit hdr pos = .ok (upds, off)) : ∀ kv ∈ upds, updOK kv := by
  unfold float4 at h
  obtain ⟨v, -, h⟩ := bind_ok h
  rw [← ok_upds h]
  intro kv hkv
  simp only [List.mem_singleton] at hkv
  subst hkv
  exact rfl

theorem floatPair_updOK {k1 k2 unit : String} {hdr : List Nat} {pos : Nat}
    {upds : List (String × PyVal)} {off : Nat}
    (h : floatPair k1 k2 unit hdr pos = .ok (upds, off)) : ∀ kv ∈ upds, updOK kv := by
  unfold floatPair at h
  obtain ⟨v1, -, h⟩ := bind_ok h
  obtain ⟨v2, -, h⟩ := bind_ok h
  rw [← ok_upds h]
  intro kv hkv
  simp only [List.mem_cons, List.not_mem_nil, or_false] at hkv
  rcases hkv with hkv | hkv
  · rw [hkv]; exact rfl
  · rw [hkv]; exact rfl

theorem byteState_updOK {key : String}
    (hkey : key ∈ ["Average Images", "MirrorState", "Spin up_down"])
    {hdr : List Nat} {pos : Nat} {upds : List (String × PyVal)} {off : Nat}
    (h : byteState key hdr pos = .ok (upds, off)) : ∀ kv ∈ upds, updOK kv := by
  unfold byteState at h
  split at h
  · exact Except.noConfusion h
  · rw [← ok_upds h]
    intro kv hkv
    simp only [List.mem_singleton] at hkv
    subst hkv
    exact hkey

theorem not_mem_of_contains_false {b : Nat} {l : List Nat}
    (h : l.contains b = false) : b ∉ l := by
  intro hm
  have hc : l.contains b = true := List.elem_eq_true_of_mem hm
  rw [h] at hc
  exact Bool.noConfusion hc

theorem map_record {x : Except Err (List (String × PyVal) × Nat)}
    {upds : List (String × PyVal)} {off : Nat}
    (h : x.map (fun r => StepOut.record r.1 r.2) = .ok (.record upds off)) :
    x = .ok (upds, off) := by
  cases x with
  | error e => exact Except.noConfusion h
  | ok r =>
      obtain ⟨u, o⟩ := r
      injection h with h1
      injection h1 with h2 h3
      cases h2; cases h3; rfl

theorem fov110_updOK {hdr : List Nat} {pos : Nat} {upds : List (String × PyVal)}
    {off : Nat} (h : fov110 hdr pos = .ok (upds, off)) : ∀ kv ∈ upds, updOK kv := by
  unfold fov110 at h
  obtain ⟨fov_str, -, h⟩ := bind_ok h
  obtain ⟨calf, -, h⟩ := bind_ok h
  rw [← ok_upds h]
  intro kv hkv
  split at hkv
  · simp only [List.cons_append, List.nil_append, List.mem_cons, List.not_mem_nil,
      or_false] at hkv
    rcases hkv with hkv | hkv | hkv
    · rw [hkv]; trivial
    · rw [hkv]; simp [updOK]
    · rw [hkv]; trivial
  split at hkv
  · simp only [List.cons_append, List.nil_append, List.mem_cons, List.not_mem_nil,
      or_false] at hkv
    rcases hkv with hkv | hkv
    · rw [hkv]; trivial
    · rw [hkv]; trivial
  split at hkv
  · simp only [List.cons_append, List.nil_append, List.mem_cons, List.not_mem_nil,
      or_false] at hkv
    rcases hkv with hkv | hkv | hkv
    · rw [hkv]; trivial
    · rw [hkv]; trivial
    · rw [hkv]; simp [updOK]
  split at hkv
  · simp only [List.cons_append, List.nil_append, List.mem_cons, List.not_mem_nil,
      or_false] at hkv
    rcases hkv with hkv | hkv | hkv
    · rw [hkv]; trivial
    · rw [hkv]; simp [updOK]
    · rw [hkv]; exact rfl
  · simp only [List.cons_append, List.nil_append, List.mem_cons, List.not_mem_nil,
      or_false] at hkv
    rcases hkv with hkv | hkv
    · rw [hkv]; trivial
    · rw [hkv]; simp [updOK]

/-- Any record the loop body decodes carries only `updOK` assignments. -/
theorem leemStep_updOK {hdr : List Nat} {pos : Nat} {upds : List (String × PyVal)}
    {off : Nat} (h : leemStep hdr pos = .ok (.record upds off)) : ∀ kv ∈ upds, updOK kv := by
  unfold leemStep at h
  split at h
  · injection h with h1
    exact StepOut.noConfusion h1
  case h_2 b hbeq =>
    by_cases h01 : b = 255
    · rw [if_pos h01] at h
      injection h with h1
      exact StepOut.noConfusion h1
    rw [if_neg h01] at h
    by_cases h02 : KNOWN_TAGS.contains b = true
    · rw [if_pos h02] at h
      exact stdField_updOK (map_record h)
    rw [if_neg h02] at h
    by_cases h03 : b = 104
    · rw [if_pos h03] at h
      exact camera104_updOK (map_record h)
    rw [if_neg h03] at h
    by_cases h04 : GAUGE_TAGS.contains b = true
    · rw [if_pos h04] at h
      exact readVarian_updOK (map_record h)
    rw [if_neg h04] at h
    by_cases h05 : b = 233
    · rw [if_pos h05] at h
      exact title233_updOK (map_record h)
    rw [if_neg h05] at h
    by_cases h06 : b = 243
    · rw [if_pos h06] at h
      exact float4_updOK (map_record h)
    rw [if_neg h06] at h
    by_cases h07 : b = 244
    · rw [if_pos h07] at h
      exact float4_updOK (map_record h)
    rw [if_neg h07] at h
    by_cases h08 : b = 100
    · rw [if_pos h08] at h
      exact floatPair_updOK (map_record h)
    rw [if_neg h08] at h
    by_cases h09 : b = 242
    · rw [if_pos h09] at h
      exact byteState_updOK (by decide) (map_record h)
    rw [if_neg h09] at h
    by_cases h10 : b = 110
    · rw [if_pos h10] at h
      exact fov110_updOK (map_record h)
    rw [if_neg h10] at h
    by_cases h11 : b = 113
    · rw [if_pos h11] at h
      exact float4_updOK (map_record h)
    rw [if_neg h11] at h
    by_cases h12 : b = 240
    · rw [if_pos h12] at h
      exact byteState_updOK (by decide) (map_record h)
    rw [if_neg h12] at h
    by_cases h13 : b = 239
    · rw [if_pos h13] at h
      exact floatPair_updOK (map_record h)
    rw [if_neg h13] at h
    injection h with h1
    exact StepOut.noConfusion h1

/-- An unrecognized tag byte (neither the sentinel nor any dispatch case)
sends the loop body into the bare `else` branch. -/
theorem leemStep_unknown {hdr : List Nat} {pos : Nat} {b : Nat}
    (hget : hdr.get? pos = some b) (hne : b ≠ 255) (hk : isKnownTag b = false) :
    leemStep hdr pos = .ok .unknown := by
  unfold isKnownTag at hk
  simp only [Bool.or_eq_false_iff, beq_eq_false_iff_ne] at hk
  obtain ⟨⟨⟨⟨⟨⟨⟨⟨⟨⟨⟨k1, k2⟩, k3⟩, k4⟩, k5⟩, k6⟩, k7⟩, k8⟩, k9⟩, k10⟩, k11⟩, k12⟩ := hk
  simp only [leemStep, hget]
  rw [if_neg hne]
  rw [if_neg (by rw [k1]; simp)]
  rw [if_neg k2]
  rw [if_neg (by rw [k3]; simp)]
  rw [if_neg k4, if_neg k5, if_neg k6, if_neg k7, if_neg k8, if_neg k9,
    if_neg k10, if_neg k11, if_neg k12]

/-- Unfolding equation of `leemLoop` at non-zero fuel (definitional). -/
theorem leemLoop_succ (hdr : List Nat) (fuel pos : Nat) (prevOff : Option Nat)
    (md : Md) (diags : List (Nat × Nat)) :
    leemLoop hdr (fuel + 1) pos prevOff md diags =
      (if pos < hdr.length then
        match leemStep hdr pos with
        | .error e => .error e
        | .ok .halt => .ok (md, diags)
        | .ok (.record upds off) =>
            if pos + 1 + off ≤ hdr.length then
              leemLoop hdr fuel (pos + off + 1) (some off) (applyUpds md upds) diags
            else .error .stopIter
        | .ok .unknown =>
            match prevOff with
            | none => .error .unboundLocal
            | some off =>
                if pos + 1 + off ≤ hdr.length then
                  leemLoop hdr fuel (pos + off + 1) (some off) md
                    (diags ++ [((hdr.get? pos).getD 0, pos)])
                else .error .stopIter
      else .ok (md, diags)) := rfl

/-- Entries of the dict after the loop: each was already present before the
loop ran, or was written by some record branch (hence is `updOK`). -/
theorem leemLoop_mem {hdr : List Nat} {fuel : Nat} :
    ∀ {pos : Nat} {prevOff : Option Nat} {md : Md} {diags : List (Nat × Nat)}
      {md' : Md} {diags' : List (Nat × Nat)},
      leemLoop hdr fuel pos prevOff md diags = .ok (md', diags') →
      ∀ kv ∈ md', kv ∈ md ∨ updOK kv := by
  induction fuel with
  | zero =>
      intro pos prevOff md diags md' diags' h
      exact Except.noConfusion h
  | succ f ih =>
      intro pos prevOff md diags md' diags' h kv hkv
      rw [leemLoop_succ] at h
      split at h
      · split at h
        · exact Except.noConfusion h
        · injection h with h1
          injection h1 with h2 h3
          rw [← h2] at hkv
          exact Or.inl hkv
        · rename_i upds off heq
          split at h
          · rcases ih h kv hkv with h' | h'
            · rcases mem_applyUpds h' with h'' | h''
              · exact Or.inl h''
              · exact Or.inr (leemStep_updOK heq kv h'')
            · exact Or.inr h'
          · exact Except.noConfusion h
        · split at h
          · exact Except.noConfusion h
          · split at h
            · exact ih h kv hkv
            · exact Except.noConfusion h
      · injection h with h1
        injection h1 with h2 h3
        rw [← h2] at hkv
        exact Or.inl hkv

/-- Entries of the dict produced by `_read_leemheader`. -/
theorem readLeemheader_mem {hdr : List Nat} {md md' : Md} {diags' : List (Nat × Nat)}
    (h : readLeemheader hdr md = .ok (md', diags')) :
    ∀ kv ∈ md', kv ∈ md ∨ updOK kv :=
  leemLoop_mem h

/-- What the first header part guarantees about its dict: the `"width"` /
`"height"` keys hold exactly the declared dimensions, and every value is a
scalar. -/
theorem readThroughDims_spec {file : List Nat} {d : DimsOut}
    (h : readThroughDims file = .ok d) :
    dictGet d.md "width" = some (.int d.width) ∧
    dictGet d.md "height" = some (.int d.height) ∧
    (∀ kv ∈ d.md, valShape kv.2) ∧
    (∀ v, ("width", v) ∈ d.md → v = .int d.width) ∧
    (∀ v, ("height", v) ∈ d.md → v = .int d.height) := by
  unfold readThroughDims at h
  obtain ⟨rs, -, h⟩ := bind_ok h
  obtain ⟨rv, -, h⟩ := bind_ok h
  obtain ⟨rb, -, h⟩ := bind_ok h
  obtain ⟨p1, -, h⟩ := bind_ok h
  obtain ⟨p2, -, h⟩ := bind_ok h
  obtain ⟨rw', -, h⟩ := bind_ok h
  obtain ⟨rh, -, h⟩ := bind_ok h
  injection h with h1
  subst h1
  refine ⟨?_, ?_, ?_, ?_, ?_⟩
  · rw [dictGet_dictSet_ne (by decide), dictGet_dictSet_self]
  · rw [dictGet_dictSet_self]
  · intro kv hkv
    rcases mem_dictSet hkv with hkv | hv
    · rcases mem_dictSet hkv with hkv | hv
      · rcases mem_dictSet hkv with hkv | hv
        · rcases mem_dictSet hkv with hkv | hv
          · rcases mem_dictSet hkv with hkv | hv
            · rcases mem_dictSet hkv with hkv | hv
              · cases hkv
              · rw [hv]; trivial
            · rw [hv]; trivial
          · rw [hv]; trivial
        · rw [hv]; trivial
      · rw [hv]; trivial
    · rw [hv]; trivial
  · intro v hv
    replace hv := pair_mem_dictSet_ne (by decide) hv
    rcases mem_dictSet hv with hv | he
    · replace hv := pair_mem_dictSet_ne (by decide) hv
      replace hv := pair_mem_dictSet_ne (by decide) hv
      replace hv := pair_mem_dictSet_ne (by decide) hv
      replace hv := pair_mem_dictSet_ne (by decide) hv
      cases hv
    · exact congrArg Prod.snd he
  · intro v hv
    rcases mem_dictSet hv with hv | he
    · replace hv := pair_mem_dictSet_ne (by decide) hv
      replace hv := pair_mem_dictSet_ne (by decide) hv
      replace hv := pair_mem_dictSet_ne (by decide) hv
      replace hv := pair_mem_dictSet_ne (by decide) hv
      replace hv := pair_mem_dictSet_ne (by decide) hv
      cases hv
    · exact congrArg Prod.snd he

/-- What the second header part guarantees: declared dimensions are passed
through unchanged, its new dict entries are scalars, and it never writes the
`"width"`/`"height"` keys. -/
theorem readRestHeader_spec {file : List Nat} {md : Md} {w hh : Int} {p0 : Nat}
    {fi : FixedInfo} {p' : Nat}
    (h : readRestHeader file md w hh p0 = .ok (fi, p')) :
    fi.width = w ∧ fi.height = hh ∧
    (∀ kv ∈ fi.md, kv ∈ md ∨ valShape kv.2) ∧
    (∀ v, ("width", v) ∈ fi.md → ("width", v) ∈ md) ∧
    (∀ v, ("height", v) ∈ fi.md → ("height", v) ∈ md) := by
  unfold readRestHeader at h
  obtain ⟨rn, -, h⟩ := bind_ok h
  obtain ⟨ra, -, h⟩ := bind_ok h
  obtain ⟨ps, -, h⟩ := bind_ok h
  split at h
  · exact Except.noConfusion h
  obtain ⟨pr, -, h⟩ := bind_ok h
  obtain ⟨ri, -, h⟩ := bind_ok h
  obtain ⟨rj, -, h⟩ := bind_ok h
  obtain ⟨rl, -, h⟩ := bind_ok h
  obtain ⟨rc, -, h⟩ := bind_ok h
  obtain ⟨ticks, -, h⟩ := bind_ok h
  obtain ⟨rx, -, h⟩ := bind_ok h
  obtain ⟨ry, -, h⟩ := bind_ok h
  obtain ⟨pu, -, h⟩ := bind_ok h
  obtain ⟨rm, -, h⟩ := bind_ok h
  obtain ⟨rp, -, h⟩ := bind_ok h
  obtain ⟨rv, -, h⟩ := bind_ok h
  injection h with h1
  injection h1 with h2 h3
  subst h2
  refine ⟨rfl, rfl, ?_, ?_, ?_⟩
  · intro kv hkv
    rcases mem_dictSet hkv with hkv | hv
    on_goal 2 => rw [hv]; exact Or.inr trivial
    rcases mem_dictSet hkv with hkv | hv
    on_goal 2 => rw [hv]; exact Or.inr trivial
    rcases mem_dictSet hkv with hkv | hv
    on_goal 2 => rw [hv]; exact Or.inr trivial
    rcases mem_dictSet hkv with hkv | hv
    on_goal 2 => rw [hv]; exact Or.inr trivial
    rcases mem_dictSet hkv with hkv | hv
    on_goal 2 => rw [hv]; exact Or.inr trivial
    rcases mem_dictSet hkv with hkv | hv
    on_goal 2 => rw [hv]; exact Or.inr trivial
    rcases mem_dictSet hkv with hkv | hv
    on_goal 2 => rw [hv]; exact Or.inr trivial
    rcases mem_dictSet hkv with hkv | hv
    on_goal 2 => rw [hv]; exact Or.inr trivial
    rcases mem_dictSet hkv with hkv | hv
    on_goal 2 => rw [hv]; exact Or.inr trivial
    rcases mem_dictSet hkv with hkv | hv
    on_goal 2 => rw [hv]; exact Or.inr trivial
    rcases mem_dictSet hkv with hkv | hv
    on_goal 2 => rw [hv]; exact Or.inr trivial
    rcases mem_dictSet hkv with hkv | hv
    on_goal 2 => rw [hv]; exact Or.inr trivial
    exact Or.inl hkv
  · intro v hv
    replace hv := pair_mem_dictSet_ne (by decide) hv
    replace hv := pair_mem_dictSet_ne (by decide) hv
    replace hv := pair_mem_dictSet_ne (by decide) hv
    replace hv := pair_mem_dictSet_ne (by decide) hv
    replace hv := pair_mem_dictSet_ne (by decide) hv
    replace hv := pair_mem_dictSet_ne (by decide) hv
    replace hv := pair_mem_dictSet_ne (by decide) hv
    replace hv := pair_mem_dictSet_ne (by decide) hv
    replace hv := pair_mem_dictSet_ne (by decide) hv
    replace hv := pair_mem_dictSet_ne (by decide) hv
    replace hv := pair_mem_dictSet_ne (by decide) hv
    replace hv := pair_mem_dictSet_ne (by decide) hv
    exact hv
  · intro v hv
    replace hv := pair_mem_dictSet_ne (by decide) hv
    replace hv := pair_mem_dictSet_ne (by decide) hv
    replace hv := pair_mem_dictSet_ne (by decide) hv
    replace hv := pair_mem_dictSet_ne (by decide) hv
    replace hv := pair_mem_dictSet_ne (by decide) hv
    replace hv := pair_mem_dictSet_ne (by decide) hv
    replace hv := pair_mem_dictSet_ne (by decide) hv
    replace hv := pair_mem_dictSet_ne (by decide) hv
    replace hv := pair_mem_dictSet_ne (by decide) hv
    replace hv := pair_mem_dictSet_ne (by decide) hv
    replace hv := pair_mem_dictSet_ne (by decide) hv
    replace hv := pair_mem_dictSet_ne (by decide) hv
    exact hv

/-- Entries of the dict `_read_leemheader` leaves in the third phase. -/
theorem readLeemPhase_mem {file : List Nat} {fi : FixedInfo} {p0 : Nat} {lo : LeemOut}
    (h : readLeemPhase file fi p0 = .ok lo) :
    ∀ kv ∈ lo.md, kv ∈ fi.md ∨ updOK kv := by
  unfold readLeemPhase at h
  split at h
  · obtain ⟨p1, -, h⟩ := bind_ok h
    obtain ⟨r, hr, h⟩ := bind_ok h
    injection h with h1
    subst h1
    exact readLeemheader_mem hr
  · obtain ⟨p1, -, h⟩ := bind_ok h
    split at h
    · obtain ⟨mks, -, h⟩ := bind_ok h
      obtain ⟨y, -, h⟩ := bind_ok h
      obtain ⟨r, hr, h⟩ := bind_ok h
      injection h with h1
      subst h1
      exact readLeemheader_mem hr
    · obtain ⟨y, -, h⟩ := bind_ok h
      obtain ⟨r, hr, h⟩ := bind_ok h
      injection h with h1
      subst h1
      exact readLeemheader_mem hr

/-! ## Concrete inputs used by the claims -/

/-- A minimal 132-byte fixed header: every byte zero, hence
`width = height = 0`, `attachedRecipeSize = 0`, `versleemdata = 0`. -/
def datHeaderZeros : List Nat := List.replicate 132 0

/-- The same header except `attachedRecipeSize = 50` (bytes 46–47). -/
def recipe50Header : List Nat :=
  List.replicate 46 0 ++ [50, 0] ++ List.replicate 84 0

/-- The same header except `width = 1`, `height = 100` (bytes 40–43): the
pixel payload would need 200 bytes but only 132 exist. -/
def shortPixelFile : List Nat :=
  List.replicate 40 0 ++ [1, 0, 100, 0] ++ List.replicate 88 0

/-- A leem-header block holding one standard-format record: the given tag,
name `"Foo"`, unit digit `'1'` (Volt), terminator, the little-endian
IEEE-754 single `3.5` (`00 00 60 40`), then the sentinel `255`. -/
def c1Block (tag : Nat) : List Nat :=
  [tag, 70, 111, 111, 49, 0, 0, 0, 96, 64, 255]

/-- A leem-header block holding one field-of-view record with string
`"none"` (length 4), terminator, four float bytes, then the sentinel. -/
def fovNoneBlock : List Nat :=
  [110, 110, 111, 110, 101, 0, 0, 0, 0, 0, 255]

/-- The metadata `decodeDat datHeaderZeros` produces. -/
def zerosMetadata : Md :=
  [("id", .bytes []), ("size", .int 0), ("version", .int 0),
   ("bitsperpix", .int 0), ("width", .int 0), ("height", .int 0),
   ("noimg", .int 0), ("attachedRecipeSize", .int 0), ("isize", .int 0),
   ("iversion", .int 0), ("colorscale_low", .int 0),
   ("colorscale_high", .int 0), ("timestamp", .datetime 0),
   ("mask_xshift", .int 0), ("mask_yshift", .int 0), ("usemask", .bytes [0]),
   ("att_markupsize", .int 0), ("spin", .int 0)]

theorem get?_lt_length {l : List Nat} {n b : Nat} (h : l.get? n = some b) :
    n < l.length := by
  by_contra hn
  rw [List.get?_eq_none.mpr (le_of_not_lt hn)] at h
  exact Option.noConfusion h

set_option maxRecDepth 100000

/-! ## Claim C2 -/

/-- Claim C2 counterexample: the decoder performs no width/height
validation.  The all-zero 132-byte file declares `width = 0` and
`height = 0` (both `≤ 0`), yet `decodeDat` succeeds — no fatal error of any
kind is raised, refuting "every input with a non-positive declared
dimension fails with a fatal FormatError". -/
theorem c2_counterexample :
    declaredDims datHeaderZeros = some (0, 0) ∧
    (decodeDat datHeaderZeros).isOk = true := ⟨rfl, rfl⟩

/-- Claim C2 amended: `_read` stores the declared width/height without any
positivity check; a file declaring `width = height = 0` (recipe size 0,
simple layout) decodes successfully into a `DecodedFile` with an empty
pixel grid and no error. -/
theorem c2_no_dimension_validation :
    decodeDat datHeaderZeros = .ok ⟨zerosMetadata, none, []⟩ := rfl

/-! ## Claim C3 -/

/-- Claim C3 counterexample: the two synthetic headers do *not* leave the
cursor at one identical absolute offset before the leem-header block — the
`recipe_size = 50` parse does not even reach that point (storing the
recipe raises `AttributeError`, see `readRestHeader`). -/
theorem c3_counterexample :
    ¬ ∃ p : Nat, posBeforeLeem datHeaderZeros = .ok p ∧
      posBeforeLeem recipe50Header = .ok p := by
  rintro ⟨p, -, h⟩
  have h50 : posBeforeLeem recipe50Header = .error .attributeError := rfl
  rw [h50] at h
  exact Except.noConfusion h

/-- Claim C3 amended: with `recipe_size = 0` the parser skips no recipe
slot at all and reaches offset 132 before the leem-header block; with
`recipe_size = 50` the fixed-header parse aborts with `AttributeError`
while storing the recipe (`FileReader.__slots__` has `"recipe"`, the code
assigns `self._recipe`), so the two paths do not coincide — the zero path
lies a full 128-byte slot earlier than a completed recipe path would. -/
theorem c3_recipe_paths_diverge :
    posBeforeLeem datHeaderZeros = .ok 132 ∧
    posBeforeLeem recipe50Header = .error .attributeError := ⟨rfl, rfl⟩

/-! ## Claim C5 -/

/-- Claim C5 counterexample: for the field-of-view record with string
`"none"` (`len = 4`) the branch assigns `offset = len + 5 = 9` — the loop
then advances the cursor by `offset + 1` (the tag byte) `= len + 6 = 10`
bytes, not the `len + 4 + 1 = 9` bytes the claim states (the claim drops
the NUL terminator byte). -/
theorem c5_counterexample :
    stepOffset (leemStep fovNoneBlock 0) = some (4 + 5) ∧ (4 + 5 : Nat) ≠ 4 + 4 :=
  ⟨rfl, by decide⟩

/-! ## Claim C1 -/

/-- Claim C1: for every standard-field tag in the known-tag set, decoding a
leem-header block holding one record with name `"Foo"`, unit digit `'1'`
(Volt) and little-endian float `3.5` after the terminator yields a metadata
dict mapping `"Foo"` to the pair `(3.5, "V")` (and nothing else). -/
theorem c1_std_field_decode {tag : Nat} (htag : tag ∈ KNOWN_TAGS) :
    readLeemheader (c1Block tag) [] =
      .ok ([("Foo", PyVal.list [.pfloat (.fin (mkRat 7 2)), .str "V"])], []) := by
  fin_cases htag <;> rfl

/-- Witness for C1 at the concrete tag 210. -/
theorem c1_witness :
    (210 : Nat) ∈ KNOWN_TAGS ∧
    readLeemheader (c1Block 210) [] =
      .ok ([("Foo", PyVal.list [.pfloat (.fin (mkRat 7 2)), .str "V"])], []) :=
  ⟨by decide, c1_std_field_decode (by decide)⟩

/-! ## Claim C7 -/

/-- Claim C7: a markup block whose first record after the 4-byte block
header is a point marker (16-bit type 6, then x 10, y 20, radius 5 among
the twelve 16-bit values of its fixed 24-byte record) followed by the
16-bit sentinel 0 decodes to exactly one marker entry `{x 10, y 20,
radius 5}`; no cross-section record is decoded (the `"arbitrary"` key is
never created, so the cross-section collection is empty). -/
theorem c7_single_marker (h0 h1 h2 h3 r0 r1 r2 r3 r4 r5 r6 r7 r8 r9 r10 r11
    r12 r13 r14 r15 : Nat) (tail : List Nat) :
    ∃ m : Markups,
      readMarkups ([h0, h1, h2, h3, 6, 0, 10, 0, 20, 0, 5, 0, r0, r1, r2, r3,
          r4, r5, r6, r7, r8, r9, r10, r11, r12, r13, r14, r15, 0, 0] ++ tail) =
        .ok m ∧
      m.marker = some [⟨10, 20, 5⟩] ∧ m.arbitrary.getD [] = [] :=
  ⟨⟨some [⟨10, 20, 5⟩], none⟩, rfl, rfl, rfl⟩

/-! ## Claim C10 -/

/-- Claim C10: when the very first tag byte of a leem-header block is
neither the sentinel 255 nor any recognized tag, `_read_leemheader` raises
`UnboundLocalError` — the skip comprehension reads the local `offset`
before any branch has assigned it — so decoding fails there instead of
just recording the non-fatal unknown-tag diagnostic. -/
theorem c10_unknown_first_tag {hdr : List Nat} {b : Nat} (md : Md)
    (hget : hdr.get? 0 = some b) (hne : b ≠ 255) (hk : isKnownTag b = false) :
    readLeemheader hdr md = .error .unboundLocal := by
  have hlt : 0 < hdr.length := get?_lt_length hget
  unfold readLeemheader
  rw [leemLoop_succ]
  rw [if_pos hlt]
  simp only [leemStep_unknown hget hne hk]

/-- Witness for C10 at the one-byte block `[7]`. -/
theorem c10_witness :
    ([7] : List Nat).get? 0 = some 7 ∧ (7 : Nat) ≠ 255 ∧ isKnownTag 7 = false ∧
    readLeemheader [7] [] = .error .unboundLocal :=
  ⟨rfl, by decide, by decide, c10_unknown_first_tag [] rfl (by decide) (by decide)⟩

/-! ## Claims C5 (amended), C6, C9 -/

theorem ok_bind {A B : Type} (a : A) (f : A → Except Err B) :
    Bind.bind (Except.ok a) f = (f a : Except Err B) := rfl

/-- Tag byte 110 dispatches to the field-of-view branch. -/
theorem leemStep_110 {hdr : List Nat} {pos : Nat}
    (hget : hdr.get? pos = some 110) :
    leemStep hdr pos = (fov110 hdr pos).map (fun r => StepOut.record r.1 r.2) := by
  unfold leemStep
  rw [hget]
  rfl

/-- Claim C5 amended: a field-of-view record whose NUL-terminated string is
`temp` (length `len`) and whose 4 calibration-float bytes are present makes
the branch assign `offset = len + 5`; the loop then advances the cursor by
`offset + 1` (tag byte included), i.e. `len + 6` in total. -/
theorem c5_amended_advance {hdr : List Nat} {pos : Nat} {temp : List Nat}
    {s : String} {f1 f2 f3 f4 : Nat}
    (hget : hdr.get? pos = some 110)
    (htemp : pySplitFirst (hdr.drop (pos + 1)) = temp)
    (hdec : decodeCp1252 temp = .ok s)
    (hfb : pySlice hdr (pos + temp.length + 2) (pos + temp.length + 6) = [f1, f2, f3, f4]) :
    stepOffset (leemStep hdr pos) = some (temp.length + 5) := by
  rw [leemStep_110 hget]
  simp only [fov110]
  rw [htemp, hdec]
  simp only [ok_bind]
  rw [hfb]
  simp only [unpack_f, ok_bind]
  rfl

/-- Witness for the amended C5 at the `"none"` record (`len = 4`). -/
theorem c5_amended_witness :
    fovNoneBlock.get? 0 = some 110 ∧
    pySplitFirst (fovNoneBlock.drop 1) = [110, 111, 110, 101] ∧
    decodeCp1252 [110, 111, 110, 101] = .ok "none" ∧
    pySlice fovNoneBlock 6 10 = [0, 0, 0, 0] ∧
    stepOffset (leemStep fovNoneBlock 0) = some (4 + 5) :=
  ⟨rfl, rfl, rfl, rfl,
    @c5_amended_advance fovNoneBlock 0 [110, 111, 110, 101] "none" 0 0 0 0
      rfl rfl rfl rfl⟩

/-- Claim C6: the field-of-view sub-cases.  In each sub-case the
calibration-factor float is recorded (under `"FOV cal. factor"`, first
assignment of the record).  If the decoded string starts with `"LEED"`,
the record additionally sets `LEED := True` and `FOV := None`; if it
starts with `"none"`, only `FOV := None` (`LEED` untouched); for the
numeric string `"12.5µm"`, `LEED := False` and `FOV := [12.5, "µm"]`. -/
theorem c6_fov_subcases {hdr : List Nat} {pos : Nat} {temp : List Nat}
    {s : String} {f1 f2 f3 f4 : Nat}
    (hget : hdr.get? pos = some 110)
    (htemp : pySplitFirst (hdr.drop (pos + 1)) = temp)
    (hdec : decodeCp1252 temp = .ok s)
    (hfb : pySlice hdr (pos + temp.length + 2) (pos + temp.length + 6) = [f1, f2, f3, f4]) :
    (pyStrSlice s 0 4 = "LEED" →
      leemStep hdr pos = .ok (.record
        [("FOV cal. factor", PyVal.pfloat (f32val f1 f2 f3 f4)),
         ("LEED", PyVal.bool true), ("FOV", PyVal.pynone)] (temp.length + 5))) ∧
    (pyStrSlice s 0 4 = "none" →
      leemStep hdr pos = .ok (.record
        [("FOV cal. factor", PyVal.pfloat (f32val f1 f2 f3 f4)),
         ("FOV", PyVal.pynone)] (temp.length + 5))) ∧
    (s = "12.5µm" →
      leemStep hdr pos = .ok (.record
        [("FOV cal. factor", PyVal.pfloat (f32val f1 f2 f3 f4)),
         ("LEED", PyVal.bool false),
         ("FOV", PyVal.list [.pfloat (.fin (mkRat 25 2)), .str "µm"])]
        (temp.length + 5))) := by
  have hbase : leemStep hdr pos = (fov110 hdr pos).map (fun r => StepOut.record r.1 r.2) :=
    leemStep_110 hget
  refine ⟨?_, ?_, ?_⟩ <;> intro hcase
  · rw [hbase]
    simp only [fov110]
    rw [htemp, hdec]
    simp only [ok_bind]
    rw [hfb]
    simp only [unpack_f, ok_bind]
    rw [hcase]
    rfl
  · rw [hbase]
    simp only [fov110]
    rw [htemp, hdec]
    simp only [ok_bind]
    rw [hfb]
    simp only [unpack_f, ok_bind]
    rw [hcase]
    rfl
  · subst hcase
    rw [hbase]
    simp only [fov110]
    rw [htemp, hdec]
    simp only [ok_bind]
    rw [hfb]
    simp only [unpack_f, ok_bind]
    rfl

/-- Witness for C6 at a concrete `"LEED"` record. -/
theorem c6_witness :
    ([110, 76, 69, 69, 68, 0, 0, 0, 96, 64, 255] : List Nat).get? 0 = some 110 ∧
    pyStrSlice "LEED" 0 4 = "LEED" ∧
    leemStep [110, 76, 69, 69, 68, 0, 0, 0, 96, 64, 255] 0 = .ok (.record
      [("FOV cal. factor", PyVal.pfloat (f32val 0 0 96 64)),
       ("LEED", PyVal.bool true), ("FOV", PyVal.pynone)] (4 + 5)) :=
  ⟨rfl, rfl,
    (@c6_fov_subcases [110, 76, 69, 69, 68, 0, 0, 0, 96, 64, 255] 0
      [76, 69, 69, 68] "LEED" 0 0 96 64 rfl rfl rfl rfl).1 rfl⟩

/-- Claim C9: an unrecognized tag met after at least one decoded record
(so the Python local `offset` still holds the previous record's value
`off`) makes the loop emit the unknown-tag diagnostic and continue,
advancing the cursor by exactly `off + 1` — the advance amount of the
previous record — into the next iteration. -/
theorem c9_unknown_tag_reuses_offset {hdr : List Nat} {fuel pos off b : Nat}
    {md : Md} {diags : List (Nat × Nat)}
    (hget : hdr.get? pos = some b) (hne : b ≠ 255) (hk : isKnownTag b = false)
    (hskip : pos + 1 + off ≤ hdr.length) :
    leemLoop hdr (fuel + 1) pos (some off) md diags =
      leemLoop hdr fuel (pos + off + 1) (some off) md (diags ++ [(b, pos)]) := by
  have hlt : pos < hdr.length := get?_lt_length hget
  rw [leemLoop_succ, if_pos hlt]
  simp only [leemStep_unknown hget hne hk, hget]
  rw [if_pos hskip]
  rfl

/-- Witness for C9: unknown tag 7 at position 0 with a remembered offset 1. -/
theorem c9_witness :
    ([7, 255, 255] : List Nat).get? 0 = some 7 ∧ isKnownTag 7 = false ∧
    (0 + 1 + 1 : Nat) ≤ 3 ∧
    leemLoop [7, 255, 255] 2 0 (some 1) [] [] =
      leemLoop [7, 255, 255] 1 (0 + 1 + 1) (some 1) [] ([] ++ [(7, 0)]) :=
  ⟨rfl, by decide, by decide,
    c9_unknown_tag_reuses_offset rfl (by decide) (by decide) (by decide)⟩

/-! ## Claim C4 -/

/-- Claim C4: whenever the input provides fewer than
`2 * declared_width * declared_height` bytes in total, the decode fails
(the end-anchored seek targets a negative offset, `OSError` in Python) —
or has already failed earlier — and no `DecodedFile` is produced; in
particular no partially-filled pixel grid can exist. -/
theorem c4_short_payload_fails {file : List Nat} {w h : Int}
    (hdims : declaredDims file = some (w, h))
    (hlen : (file.length : Int) < 2 * w * h) :
    (decodeDat file).isOk = false := by
  unfold decodeDat
  cases hT : readThroughDims file with
  | error e =>
      unfold declaredDims at hdims
      rw [hT] at hdims
      exact Option.noConfusion hdims
  | ok d =>
      have hdw : d.width = w ∧ d.height = h := by
        unfold declaredDims at hdims
        rw [hT] at hdims
        injection hdims with h1
        exact ⟨congrArg Prod.fst h1, congrArg Prod.snd h1⟩
      simp only [ok_bind]
      cases hR : readRestHeader file d.md d.width d.height d.pos with
      | error e => rfl
      | ok rp =>
          obtain ⟨fi, p'⟩ := rp
          simp only [ok_bind]
          cases hL : readLeemPhase file fi p' with
          | error e => rfl
          | ok lo =>
              simp only [ok_bind]
              have hspecT := readThroughDims_spec hT
              have hspecR := readRestHeader_spec hR
              have hmemL := readLeemPhase_mem hL
              unfold readImage
              cases hH : dictGet lo.md "height" with
              | none => rfl
              | some v =>
                  rcases hmemL ("height", v) (dictGet_mem hH) with hin | hupd
                  · have hv : v = .int d.height := by
                      have h1 : ("height", v) ∈ d.md := hspecR.2.2.2.2 v hin
                      exact hspecT.2.2.2.2 v h1
                    subst hv
                    simp only [pyIntOf, ok_bind]
                    cases hW : dictGet lo.md "width" with
                    | none => rfl
                    | some v2 =>
                        rcases hmemL ("width", v2) (dictGet_mem hW) with hin2 | hupd2
                        · have hv2 : v2 = .int d.width := by
                            have h1 : ("width", v2) ∈ d.md := hspecR.2.2.2.1 v2 hin2
                            exact hspecT.2.2.2.1 v2 h1
                          subst hv2
                          simp only [pyIntOf, ok_bind]
                          have hc : (file.length : Int) + (-2 * d.height * d.width) < 0 := by
                            rw [hdw.1, hdw.2]
                            have hr : (2 : Int) * w * h = 2 * h * w := by ring
                            linarith [hlen, hr]
                          unfold seekEndAt
                          rw [if_pos hc]
                          rfl
                        · cases v2 with
                          | int n => simp [updOK] at hupd2
                          | bool bb => simp [updOK] at hupd2
                          | pfloat f => rfl
                          | str s => rfl
                          | pynone => rfl
                          | bytes bs => rfl
                          | datetime t => rfl
                          | list l => rfl
                  · cases v with
                    | int n => simp [updOK] at hupd
                    | bool bb => simp [updOK] at hupd
                    | pfloat f => rfl
                    | str s => rfl
                    | pynone => rfl
                    | bytes bs => rfl
                    | datetime t => rfl
                    | list l => rfl

/-- Witness for C4: the 132-byte header declaring 1 × 100 pixels (payload
would need 200 bytes). -/
theorem c4_witness :
    declaredDims shortPixelFile = some (1, 100) ∧
    ((shortPixelFile.length : Int) < 2 * 1 * 100) ∧
    (decodeDat shortPixelFile).isOk = false :=
  ⟨rfl, by decide, c4_short_payload_fails rfl (by decide)⟩

/-! ## Claim C8 -/

/-- The value shape claim C8 asserts: an integer, or an ordered pair of
one or two elements. -/
def intOrPairShape (v : PyVal) : Prop :=
  match v with
  | .int _ => True
  | .list l => l.length = 1 ∨ l.length = 2
  | _ => False

/-- Claim C8 counterexample: the all-zero header decodes successfully, and
its metadata holds `"usemask" ↦ bytes [0]` — a raw-bytes value, neither an
integer nor a one/two-element pair (the same dict also stores a bytes
`"id"` and a datetime `"timestamp"`; with leem fields present, booleans,
`None` and bare floats appear as well). -/
theorem c8_counterexample :
    decodeDat datHeaderZeros = .ok ⟨zerosMetadata, none, []⟩ ∧
    dictGet zerosMetadata "usemask" = some (.bytes [0]) ∧
    ¬ intOrPairShape (.bytes [0]) :=
  ⟨rfl, rfl, fun hh => hh⟩

/-- Claim C8 amended: every value stored in the metadata dict of a
successfully decoded file is either a scalar (integer, float, string,
boolean, `None`, raw bytes, or timestamp) or a list of exactly two
elements `[value, unit]`; lists of any other length — in particular longer
than two — are never produced. -/
theorem c8_amended_value_shapes {file : List Nat} {d : DecodedFile}
    (h : decodeDat file = .ok d) :
    ∀ kv ∈ d.metadata, valShape kv.2 := by
  unfold decodeDat at h
  obtain ⟨dd, hT, h⟩ := bind_ok h
  obtain ⟨rp, hR, h⟩ := bind_ok h
  obtain ⟨fi, p'⟩ := rp
  obtain ⟨lo, hL, h⟩ := bind_ok h
  obtain ⟨grid, hI, h⟩ := bind_ok h
  injection h with h1
  subst h1
  intro kv hkv
  rcases readLeemPhase_mem hL kv hkv with hin | hupd
  · rcases (readRestHeader_spec hR).2.2.1 kv hin with hin2 | hvs
    · exact (readThroughDims_spec hT).2.2.1 kv hin2
    · exact hvs
  · exact updOK_valShape hupd

/-- Witness for the amended C8: the all-zero header decodes, and its
`"usemask"` entry satisfies the shape invariant. -/
theorem c8_amended_witness :
    valShape (PyVal.bytes [0]) :=
  @c8_amended_value_shapes datHeaderZeros ⟨zerosMetadata, none, []⟩ rfl
    ("usemask", PyVal.bytes [0])
    (by unfold zerosMetadata
        repeat first
          | exact List.mem_cons_self _ _
          | apply List.mem_cons_of_mem)

end Py4uview
